import Mathlib

set_option synthInstance.maxSize 1024

/-!
Verification of `nested-pie-chart.py`: a shallow embedding of the script's
data model and functions, together with theorems settling the specified
behaviour of the loader, the arc sampler, the sector assembler and the
collection merger.

Modelling conventions:
* Python strings are lists of characters (`Str`); CSV rows are association
  lists from field names to field values, mirroring `csv.DictReader` rows.
* Python exceptions are an explicit `PyErr` type and fallible code returns
  `Except PyErr _`; `d[k]` on a dict is `dictGetE`, raising `KeyError` when
  the key is absent, and `a, b = xs` is `unpack2`, raising `ValueError` on
  a list whose length is not 2.
* The numeric carrier is an arbitrary field `α` (rationals in concrete
  runs); the external library functions — `math.sin`, `math.cos`,
  `math.radians` from `math`, the `pyproj` transformer, and Python's
  `float` string parser — are parameters (`MathOps`, `tr`, `pf`), since
  they are not part of this repository's code.
* Division by a Python integer is `pydiv`, raising `ZeroDivisionError` on a
  zero denominator, exactly as Python float division does.
-/

namespace NestedPie

/-- Python strings, modelled as their lists of characters. -/
abbrev Str := List Char

/-- The Python exceptions the script can raise. -/
inductive PyErr where
  | valueError (msg : String)
  | keyError (key : Str)
  | zeroDivisionError
  deriving DecidableEq

/-- Field name `Area`. -/
def areaK : Str := "Area".toList

/-- Field name `Risk`. -/
def riskK : Str := "Risk".toList

/-- Field name `Lon_NO` (the longitude field read on the Site row, line 27). -/
def lonK : Str := "Lon_NO".toList

/-- Field name `Lat_NO` (the latitude field read on the Site row, line 27). -/
def latK : Str := "Lat_NO".toList

/-- The reserved sentinel `Area` value `Site` (line 25). -/
def siteV : Str := "Site".toList

/-- Key `R1` of the inner tier's risk dict (line 17). -/
def r1K : Str := "R1".toList

/-- Key `R2` of the outer tier's risk dict (line 17). -/
def r2K : Str := "R2".toList

/-- Suffix `_R1` of inner-tier `Area` properties (line 75). -/
def r1Suffix : Str := "_R1".toList

/-- Suffix `_R2` of outer-tier `Area` properties (line 85). -/
def r2Suffix : Str := "_R2".toList

/-- Message of the `ValueError` raised at line 40 when no Site row was seen. -/
def centerMsg : String := "Center (site row) not found in the CSV file."

/-- Message of the `ValueError` Python raises when unpacking a too-short list. -/
def unpackFewMsg : String := "not enough values to unpack"

/-- Message of the `ValueError` Python raises when unpacking a too-long list. -/
def unpackManyMsg : String := "too many values to unpack"

/-- A Python dict with `Str` keys, as an association list in insertion order. -/
abbrev Dict (β : Type) := List (Str × β)

/-- Dict lookup, `d.get(k)`: the value at the first matching key, if any. -/
def dictGet? {β : Type} : Dict β → Str → Option β
  | [], _ => none
  | (k, v) :: m, k' => if k = k' then some v else dictGet? m k'

/-- Dict subscript access `d[k]`, raising `KeyError k` when the key is absent. -/
def dictGetE {β : Type} (m : Dict β) (k : Str) : Except PyErr β :=
  match dictGet? m k with
  | some v => .ok v
  | none => .error (.keyError k)

/-- Dict assignment `d[k] = v`: replaces the value at an existing key
in place, otherwise appends the binding, as Python dicts do. -/
def dictSet {β : Type} : Dict β → Str → β → Dict β
  | [], k, v => [(k, v)]
  | (k', v') :: m, k, v => if k' = k then (k, v) :: m else (k', v') :: dictSet m k v

/-- Python tuple unpacking `a, b = l`, raising `ValueError` unless `l` has
exactly two elements (line 30 of the script). -/
def unpack2 {β : Type} : List β → Except PyErr (β × β)
  | [a, b] => .ok (a, b)
  | l => .error (.valueError (if l.length < 2 then unpackFewMsg else unpackManyMsg))

/-- One step of Python's `area.split("_R")` (line 30), specialised to the
separator `"_R"`: `acc` holds the reversed characters of the current part. -/
def splitRAux : List Char → List Char → List (List Char)
  | acc, [] => [acc.reverse]
  | acc, '_' :: 'R' :: rest => acc.reverse :: splitRAux [] rest
  | acc, c :: rest => splitRAux (c :: acc) rest

/-- Python's `s.split("_R")`. -/
def pySplitR (s : List Char) : List (List Char) := splitRAux [] s

/-- Joins parts with the separator `"_R"`; inverse of `pySplitR`. -/
def joinR : List (List Char) → List Char
  | [] => []
  | [p] => p
  | p :: ps => p ++ '_' :: 'R' :: joinR ps

/-- The loader's accumulated state: the insertion-ordered direction keys
(line 16), the two-tier risk dict (line 17) and the optional center (line 18). -/
structure LoadState (α : Type) where
  directions : List Str
  risks : Dict (Dict Str)
  center : Option (α × α)
  deriving DecidableEq

/-- The loader's initial state (lines 16–18). -/
def initState (α : Type) : LoadState α :=
  { directions := [], risks := [(r1K, []), (r2K, [])], center := none }

/-- One iteration of the loader's row loop (`load_csv_data`, lines 22–37).
`pf` is Python's `float` applied to a field value. -/
def loadRow {α : Type} (pf : Str → Except PyErr α) (s : LoadState α) (row : Dict Str) :
    Except PyErr (LoadState α) :=
  match dictGetE row areaK with
  | .error e => .error e
  | .ok area =>
    if area = siteV then
      match dictGetE row lonK with
      | .error e => .error e
      | .ok lonS =>
        match pf lonS with
        | .error e => .error e
        | .ok lon =>
          match dictGetE row latK with
          | .error e => .error e
          | .ok latS =>
            match pf latS with
            | .error e => .error e
            | .ok lat => .ok { s with center := some (lon, lat) }
    else
      match unpack2 (pySplitR area) with
      | .error e => .error e
      | .ok (direction, radius) =>
        match dictGetE row riskK with
        | .error e => .error e
        | .ok risk =>
          let directions' :=
            if direction ∈ s.directions then s.directions else s.directions ++ [direction]
          match dictGetE s.risks ('R' :: radius) with
          | .error e => .error e
          | .ok tierMap =>
            .ok { s with
                  directions := directions',
                  risks := dictSet s.risks ('R' :: radius) (dictSet tierMap direction risk) }

/-- The loader's row loop over the whole table (lines 22–37). -/
def loadRows {α : Type} (pf : Str → Except PyErr α) :
    LoadState α → List (Dict Str) → Except PyErr (LoadState α)
  | s, [] => .ok s
  | s, row :: rest =>
    match loadRow pf s row with
    | .error e => .error e
    | .ok s' => loadRows pf s' rest

/-- `load_csv_data` (lines 14–41): processes the rows, then fails with the
missing-center `ValueError` when no Site row set the center (lines 39–40). -/
def load_csv_data {α : Type} (pf : Str → Except PyErr α) (rows : List (Dict Str)) :
    Except PyErr (List Str × Dict (Dict Str) × (α × α)) :=
  match loadRows pf (initState α) rows with
  | .error e => .error e
  | .ok s =>
    match s.center with
    | none => .error (.valueError centerMsg)
    | some c => .ok (s.directions, s.risks, c)

/-- The external math functions used by the script (`math.sin`, `math.cos`,
`math.radians`), kept abstract: they come from Python's `math` module, not
from this repository. -/
structure MathOps (α : Type) where
  sin : α → α
  cos : α → α
  radians : α → α

/-- Python division of a field element by an `int`, raising
`ZeroDivisionError` on a zero denominator. -/
def pydiv {α : Type} [Field α] (x : α) (n : ℕ) : Except PyErr α :=
  if n = 0 then .error .zeroDivisionError else .ok (x / (n : α))

/-- The loop body of `calculate_arc_points` over the list of sample indices
(lines 47–53): for each index the sampled angle, the local point
`(radius·sin θ, radius·cos θ)` and its image under the transformer. -/
def arcLoop {α : Type} [Field α] (M : MathOps α) (tr : α × α → α × α)
    (radius startAngle endAngle : α) (numPoints : ℕ) :
    List ℕ → Except PyErr (List (α × α))
  | [] => .ok []
  | k :: rest =>
    match pydiv ((endAngle - startAngle) * (k : α)) numPoints with
    | .error e => .error e
    | .ok q =>
      match arcLoop M tr radius startAngle endAngle numPoints rest with
      | .error e => .error e
      | .ok ps =>
        .ok (tr (radius * M.sin (M.radians (startAngle + q)),
                 radius * M.cos (M.radians (startAngle + q))) :: ps)

/-- `calculate_arc_points` (lines 44–54). The `center` argument is unused,
as in the source; call sites pass `numPoints = 30`, the source's default. -/
def calculate_arc_points {α : Type} [Field α] (M : MathOps α) (tr : α × α → α × α)
    (center : α × α) (radius startAngle endAngle : α) (numPoints : ℕ) :
    Except PyErr (List (α × α)) :=
  arcLoop M tr radius startAngle endAngle numPoints (List.range (numPoints + 1))

/-- The angle, in degrees, sampled at index `k` (the argument of
`math.radians` at line 48). -/
def sample_deg {α : Type} [Field α] (startAngle endAngle : α) (numPoints k : ℕ) : α :=
  startAngle + (endAngle - startAngle) * (k : α) / (numPoints : α)

/-- The pure value of the arc sample list; `calculate_arc_points` returns
exactly this list whenever `numPoints ≠ 0`. -/
def arc_points {α : Type} [Field α] (M : MathOps α) (tr : α × α → α × α)
    (radius startAngle endAngle : α) (numPoints : ℕ) : List (α × α) :=
  (List.range (numPoints + 1)).map fun k =>
    tr (radius * M.sin (M.radians (sample_deg startAngle endAngle numPoints k)),
        radius * M.cos (M.radians (sample_deg startAngle endAngle numPoints k)))

/-- A GeoJSON feature as the script builds it: the polygon ring handed to
`Polygon(...)` plus the `Area` and `Risk` properties. -/
structure Feature (α : Type) where
  ring : List (α × α)
  area : Str
  risk : Str
  deriving DecidableEq

/-- A GeoJSON feature collection. -/
structure FeatureCollection (α : Type) where
  features : List (Feature α)
  deriving DecidableEq

/-- The `i`-th sector's start angle `i * (360 / num_segments)` (line 65). -/
def sector_start {α : Type} [Field α] (numSegments i : ℕ) : α :=
  (i : α) * ((360 : α) / (numSegments : α))

/-- The `i`-th sector's end angle `start_angle + 360 / num_segments` (line 66). -/
def sector_end {α : Type} [Field α] (numSegments i : ℕ) : α :=
  sector_start numSegments i + (360 : α) / (numSegments : α)

/-- The loop of `generate_pie_chart` (lines 63–86): processes the suffix
`ds` of the direction list, `i` being the index of its first element and
`num` the total number of segments, and returns the inner and outer
feature lists it contributes. -/
def buildFeatures {α : Type} [Field α] (M : MathOps α) (tr : α × α → α × α)
    (risks : Dict (Dict Str)) (center : α × α) (radiusInner radiusOuter : α) (num : ℕ) :
    ℕ → List Str → Except PyErr (List (Feature α) × List (Feature α))
  | _, [] => .ok ([], [])
  | i, d :: rest =>
    match pydiv (360 : α) num with
    | .error e => .error e
    | .ok w1 =>
      match pydiv (360 : α) num with
      | .error e => .error e
      | .ok w2 =>
        match calculate_arc_points M tr center radiusInner ((i : α) * w1) ((i : α) * w1 + w2) 30 with
        | .error e => .error e
        | .ok innerArc =>
          match dictGetE risks r1K with
          | .error e => .error e
          | .ok r1map =>
            match dictGetE r1map d with
            | .error e => .error e
            | .ok riskI =>
              match calculate_arc_points M tr center radiusOuter ((i : α) * w1) ((i : α) * w1 + w2) 30 with
              | .error e => .error e
              | .ok outerArc =>
                match dictGetE risks r2K with
                | .error e => .error e
                | .ok r2map =>
                  match dictGetE r2map d with
                  | .error e => .error e
                  | .ok riskO =>
                    match buildFeatures M tr risks center radiusInner radiusOuter num (i + 1) rest with
                    | .error e => .error e
                    | .ok (restI, restO) =>
                      .ok (⟨center :: innerArc ++ [center], d ++ r1Suffix, riskI⟩ :: restI,
                           ⟨outerArc ++ innerArc.reverse, d ++ r2Suffix, riskO⟩ :: restO)

/-- `generate_pie_chart` (lines 57–88). -/
def generate_pie_chart {α : Type} [Field α] (M : MathOps α) (tr : α × α → α × α)
    (directions : List Str) (risks : Dict (Dict Str)) (center : α × α)
    (radiusInner radiusOuter : α) :
    Except PyErr (FeatureCollection α × FeatureCollection α) :=
  match buildFeatures M tr risks center radiusInner radiusOuter directions.length 0 directions with
  | .error e => .error e
  | .ok (fI, fO) => .ok (⟨fI⟩, ⟨fO⟩)

/-- `merge_inner_outer` (lines 91–94). -/
def merge_inner_outer {α : Type} (inner outer : FeatureCollection α) : FeatureCollection α :=
  ⟨inner.features ++ outer.features⟩

/-- `main` (lines 97–119) on a given table: load, build the transformer
from the center, generate, merge. The `ok` payload is the collection
written to the output file; an `error` result is the uncaught exception,
with no file written. -/
def main {α : Type} [Field α] (pf : Str → Except PyErr α) (M : MathOps α)
    (mkTransformer : α × α → α × α → α × α) (rows : List (Dict Str)) :
    Except PyErr (FeatureCollection α) :=
  match load_csv_data pf rows with
  | .error e => .error e
  | .ok (directions, risks, center) =>
    match generate_pie_chart M (mkTransformer center) directions risks center 100 200 with
    | .error e => .error e
    | .ok (inner, outer) => .ok (merge_inner_outer inner outer)

/-- Decidable equality of `Except` results, for evaluating concrete runs. -/
instance {ε β : Type} [DecidableEq ε] [DecidableEq β] : DecidableEq (Except ε β) := fun x y =>
  match x, y with
  | .error e, .error f => decidable_of_iff (e = f) (by simp)
  | .ok a, .ok b => decidable_of_iff (a = b) (by simp)
  | .error _, .ok _ => isFalse (by simp)
  | .ok _, .error _ => isFalse (by simp)

/-!
Concrete instantiations of the external parameters and concrete input
tables, used to evaluate the embedded program on explicit runs. `Mtriv`
satisfies the Pythagorean identity pointwise (`sin = 0`, `cos = 1`), and
the identity transformer sends the local origin to the geographic point
`(0, 0)`.
-/

/-- A `float` parser sending every field value to `0`. -/
def pf0 : Str → Except PyErr ℚ := fun _ => .ok 0

/-- A `float` parser sending a field value to its length, so that distinct
lengths give distinct coordinates. -/
def pfLen : Str → Except PyErr ℚ := fun s => .ok (s.length : ℚ)

/-- Concrete math functions: `sin = 0`, `cos = 1`, `radians = id`. -/
def Mtriv : MathOps ℚ := ⟨fun _ => 0, fun _ => 1, fun t => t⟩

/-- The identity transformer. -/
def trId : ℚ × ℚ → ℚ × ℚ := fun p => p

/-- A transformer factory returning the identity transformer. -/
def mkTr0 : ℚ × ℚ → ℚ × ℚ → ℚ × ℚ := fun _ => trId

/-- Risk value `low`. -/
def lowV : Str := "low".toList

/-- Risk value `high`. -/
def highV : Str := "high".toList

/-- Direction label `N`. -/
def nD : Str := "N".toList

/-- Direction label `A`. -/
def aD : Str := "A".toList

/-- Direction label `B`. -/
def bD : Str := "B".toList

/-- A Site row with `Lon_NO = "10.0"` and `Lat_NO = "45.0"`. -/
def siteRow : Dict Str := [(areaK, siteV), (lonK, ("10.0".toList)), (latK, ("45.0".toList))]

/-- A second Site row with the shorter coordinate fields `"7"` and `"8.5"`. -/
def siteRow2 : Dict Str := [(areaK, siteV), (lonK, ("7".toList)), (latK, ("8.5".toList))]

/-- Row `N_R1` with risk `low`. -/
def rowNInner : Dict Str := [(areaK, ("N_R1".toList)), (riskK, lowV)]

/-- Row `N_R2` with risk `high`. -/
def rowNOuter : Dict Str := [(areaK, ("N_R2".toList)), (riskK, highV)]

/-- Row `A_R2` with risk `high` (direction `A` only in the outer tier). -/
def rowAOuter : Dict Str := [(areaK, ("A_R2".toList)), (riskK, highV)]

/-- Row `B_R1` with risk `low` (direction `B` only in the inner tier). -/
def rowBInner : Dict Str := [(areaK, ("B_R1".toList)), (riskK, lowV)]

/-- A row whose `Area` value `bad` contains no `_R` separator. -/
def rowBad : Dict Str := [(areaK, ("bad".toList))]

/-- A well-formed `N_R1` row that lacks the `Risk` field. -/
def rowNoRisk : Dict Str := [(areaK, ("N_R1".toList))]

/-- A complete single-direction table: Site row plus `N_R1` and `N_R2`. -/
def rows0 : List (Dict Str) := [siteRow, rowNInner, rowNOuter]

/-- The risk dict produced by loading `rows0`. -/
def risks0 : Dict (Dict Str) := [(r1K, [(nD, lowV)]), (r2K, [(nD, highV)])]

/-- The inner ring `generate_pie_chart` builds from `rows0` under `Mtriv`
and the identity transformer: every arc sample is `(100·sin, 100·cos) = (0, 100)`. -/
def innerRing0 : List (ℚ × ℚ) := (0, 0) :: List.replicate 31 (0, 100) ++ [(0, 0)]

/-- The corresponding outer ring: the outer arc at radius 200 followed by
the reversed inner arc at radius 100. -/
def outerRing0 : List (ℚ × ℚ) := List.replicate 31 (0, 200) ++ List.replicate 31 (0, 100)

/-- The inner feature collection of the `rows0` run. -/
def fcI0 : FeatureCollection ℚ := ⟨[⟨innerRing0, nD ++ r1Suffix, lowV⟩]⟩

/-- The outer feature collection of the `rows0` run. -/
def fcO0 : FeatureCollection ℚ := ⟨[⟨outerRing0, nD ++ r2Suffix, highV⟩]⟩

/-- A table exhibiting a tier mismatch both ways: `A` only in the outer
tier, `B` only in the inner tier. -/
def rowsMismatch : List (Dict Str) := [siteRow, rowAOuter, rowBInner]

/-- The risk dict produced by loading `rowsMismatch`. -/
def risksMismatch : Dict (Dict Str) := [(r1K, [(bD, lowV)]), (r2K, [(aD, highV)])]

/-- The loader state after processing `siteRow` with the zero parser. -/
def sSite : LoadState ℚ :=
  { directions := [], risks := [(r1K, []), (r2K, [])], center := some (0, 0) }

/-- The loader state after processing only `rowNInner` (no Site row seen). -/
def sNInner : LoadState ℚ :=
  { directions := [nD], risks := [(r1K, [(nD, lowV)]), (r2K, [])], center := none }

/-- The loader state after processing `siteRow2` then `siteRow` with the
length parser: the second Site row's coordinates `(4, 4)` win. -/
def sTwoSites : LoadState ℚ :=
  { directions := [], risks := [(r1K, []), (r2K, [])], center := some (4, 4) }

/-- The top-level keys of a loader state's risk dict are exactly `R1` and
`R2`; an invariant of the row loop, established by `initState`. -/
def risksKeysOK {α : Type} (s : LoadState α) : Prop :=
  ∀ k v, dictGet? s.risks k = some v → k = r1K ∨ k = r2K

/-!
General lemmas about the embedded dict, unpacking and split operations.
-/

theorem dictGetE_ok_iff {β : Type} {m : Dict β} {k : Str} {v : β} :
    dictGetE m k = .ok v ↔ dictGet? m k = some v := by
  unfold dictGetE
  cases h : dictGet? m k <;> simp

theorem dictGetE_error_iff {β : Type} {m : Dict β} {k : Str} {e : PyErr} :
    dictGetE m k = .error e ↔ dictGet? m k = none ∧ e = .keyError k := by
  unfold dictGetE
  cases h : dictGet? m k <;> simp
  exact comm

theorem dictGet?_dictSet {β : Type} (m : Dict β) (k k' : Str) (v : β) :
    dictGet? (dictSet m k v) k' = if k = k' then some v else dictGet? m k' := by
  induction m with
  | nil => by_cases h : k = k' <;> simp [dictSet, dictGet?, h]
  | cons p m ih =>
    obtain ⟨k0, v0⟩ := p
    by_cases h1 : k0 = k <;> by_cases h2 : k = k' <;>
      simp_all [dictSet, dictGet?]

theorem unpack2_ok_iff {β : Type} {l : List β} {a b : β} :
    unpack2 l = .ok (a, b) ↔ l = [a, b] := by
  match l with
  | [] => simp [unpack2]
  | [x] => simp [unpack2]
  | [x, y] => constructor <;> (intro h; simp [unpack2] at h ⊢; tauto)
  | x :: y :: z :: t => simp [unpack2]

theorem splitRAux_ne_nil (acc s : List Char) : splitRAux acc s ≠ [] := by
  induction acc, s using splitRAux.induct with
  | case1 acc => simp [splitRAux.eq_1]
  | case2 acc rest ih => simp [splitRAux.eq_2]
  | case3 acc c rest hnm ih =>
    rw [splitRAux.eq_3 _ _ _ hnm]
    exact ih

theorem splitRAux_join (acc s : List Char) :
    acc.reverse ++ s = joinR (splitRAux acc s) := by
  induction acc, s using splitRAux.induct with
  | case1 acc => simp [splitRAux.eq_1, joinR]
  | case2 acc rest ih =>
    obtain ⟨q, qs, hq⟩ := List.exists_cons_of_ne_nil (splitRAux_ne_nil [] rest)
    have hred : joinR (acc.reverse :: q :: qs) = acc.reverse ++ '_' :: 'R' :: joinR (q :: qs) := rfl
    rw [splitRAux.eq_2, hq, hred, ← hq, ← ih]
    simp
  | case3 acc c rest hnm ih =>
    rw [splitRAux.eq_3 _ _ _ hnm, ← ih]
    simp

theorem pySplitR_pair {a d t : List Char} (h : pySplitR a = [d, t]) :
    a = d ++ '_' :: 'R' :: t := by
  have hj := splitRAux_join [] a
  rw [pySplitR] at h
  rw [h] at hj
  simpa [joinR] using hj

/-!
Lemmas about the arc sampler.
-/

theorem arcLoop_ok {α : Type} [Field α] (M : MathOps α) (tr : α × α → α × α)
    (radius startAngle endAngle : α) (numPoints : ℕ) (hn : numPoints ≠ 0) (l : List ℕ) :
    arcLoop M tr radius startAngle endAngle numPoints l =
      .ok (l.map fun k =>
        tr (radius * M.sin (M.radians (sample_deg startAngle endAngle numPoints k)),
            radius * M.cos (M.radians (sample_deg startAngle endAngle numPoints k)))) := by
  induction l with
  | nil => rfl
  | cons k rest ih => simp [arcLoop, pydiv, hn, ih, sample_deg]

theorem calculate_arc_points_ok {α : Type} [Field α] (M : MathOps α) (tr : α × α → α × α)
    (center : α × α) (radius startAngle endAngle : α) (numPoints : ℕ) (hn : numPoints ≠ 0) :
    calculate_arc_points M tr center radius startAngle endAngle numPoints =
      .ok (arc_points M tr radius startAngle endAngle numPoints) := by
  rw [calculate_arc_points, arc_points,
    arcLoop_ok M tr radius startAngle endAngle numPoints hn]

theorem arc_points_length {α : Type} [Field α] (M : MathOps α) (tr : α × α → α × α)
    (radius startAngle endAngle : α) (numPoints : ℕ) :
    (arc_points M tr radius startAngle endAngle numPoints).length = numPoints + 1 := by
  simp [arc_points]

theorem arc_points_getElem? {α : Type} [Field α] (M : MathOps α) (tr : α × α → α × α)
    (radius startAngle endAngle : α) (numPoints k : ℕ) (hk : k ≤ numPoints) :
    (arc_points M tr radius startAngle endAngle numPoints)[k]? =
      some (tr (radius * M.sin (M.radians (sample_deg startAngle endAngle numPoints k)),
                radius * M.cos (M.radians (sample_deg startAngle endAngle numPoints k)))) := by
  have hk' : k < numPoints + 1 := by omega
  simp [arc_points, List.getElem?_map, List.getElem?_range, hk']

theorem arc_points_mem {α : Type} [Field α] {M : MathOps α} {tr : α × α → α × α}
    {radius startAngle endAngle : α} {numPoints : ℕ} {p : α × α}
    (h : p ∈ arc_points M tr radius startAngle endAngle numPoints) :
    ∃ k, p = tr (radius * M.sin (M.radians (sample_deg startAngle endAngle numPoints k)),
                 radius * M.cos (M.radians (sample_deg startAngle endAngle numPoints k))) := by
  simp only [arc_points, List.mem_map, List.mem_range] at h
  obtain ⟨k, _, hk⟩ := h
  exact ⟨k, hk.symm⟩

/-!
Inversion and invariant lemmas about the loader.
-/

theorem loadRow_area_none {α : Type} {pf : Str → Except PyErr α} {s : LoadState α}
    {row : Dict Str} (h : dictGet? row areaK = none) :
    loadRow pf s row = .error (.keyError areaK) := by
  simp [loadRow, dictGetE, h]

theorem loadRow_site_inv {α : Type} {pf : Str → Except PyErr α} {s s' : LoadState α}
    {row : Dict Str} (ha : dictGet? row areaK = some siteV)
    (h : loadRow pf s row = .ok s') :
    ∃ ls lats lv av,
      dictGet? row lonK = some ls ∧ pf ls = .ok lv ∧
      dictGet? row latK = some lats ∧ pf lats = .ok av ∧
      s' = { s with center := some (lv, av) } := by
  have hA : dictGetE row areaK = .ok siteV := dictGetE_ok_iff.mpr ha
  simp only [loadRow, hA, if_pos] at h
  cases hlon : dictGetE row lonK with
  | error e => simp only [hlon] at h; exact Except.noConfusion h
  | ok lonS =>
    simp only [hlon] at h
    cases hplon : pf lonS with
    | error e => simp only [hplon] at h; exact Except.noConfusion h
    | ok lv =>
      simp only [hplon] at h
      cases hlat : dictGetE row latK with
      | error e => simp only [hlat] at h; exact Except.noConfusion h
      | ok latS =>
        simp only [hlat] at h
        cases hplat : pf latS with
        | error e => simp only [hplat] at h; exact Except.noConfusion h
        | ok av =>
          simp only [hplat] at h
          exact ⟨lonS, latS, lv, av, dictGetE_ok_iff.mp hlon, hplon,
            dictGetE_ok_iff.mp hlat, hplat, by simpa using h.symm⟩

theorem loadRow_site {α : Type} (pf : Str → Except PyErr α) (s : LoadState α)
    (row : Dict Str) {ls lats : Str} {lv av : α}
    (ha : dictGet? row areaK = some siteV)
    (hlon : dictGet? row lonK = some ls) (hplon : pf ls = .ok lv)
    (hlat : dictGet? row latK = some lats) (hplat : pf lats = .ok av) :
    loadRow pf s row = .ok { s with center := some (lv, av) } := by
  simp [loadRow, dictGetE, ha, hlon, hplon, hlat, hplat]

theorem loadRow_notsite_inv {α : Type} {pf : Str → Except PyErr α} {s s' : LoadState α}
    {row : Dict Str} {a : Str} (ha : dictGet? row areaK = some a) (hns : a ≠ siteV)
    (h : loadRow pf s row = .ok s') :
    ∃ d t risk tierMap,
      pySplitR a = [d, t] ∧
      dictGet? row riskK = some risk ∧
      dictGet? s.risks ('R' :: t) = some tierMap ∧
      s' = { s with
             directions := if d ∈ s.directions then s.directions else s.directions ++ [d],
             risks := dictSet s.risks ('R' :: t) (dictSet tierMap d risk) } := by
  have hA : dictGetE row areaK = .ok a := dictGetE_ok_iff.mpr ha
  simp only [loadRow, hA, if_neg hns] at h
  cases hu : unpack2 (pySplitR a) with
  | error e => simp only [hu] at h; exact Except.noConfusion h
  | ok dt =>
    obtain ⟨d, t⟩ := dt
    simp only [hu] at h
    cases hrk : dictGetE row riskK with
    | error e => simp only [hrk] at h; exact Except.noConfusion h
    | ok risk =>
      simp only [hrk] at h
      cases htm : dictGetE s.risks ('R' :: t) with
      | error e => simp only [htm] at h; exact Except.noConfusion h
      | ok tierMap =>
        simp only [htm] at h
        exact ⟨d, t, risk, tierMap, unpack2_ok_iff.mp hu, dictGetE_ok_iff.mp hrk,
          dictGetE_ok_iff.mp htm, by simpa using h.symm⟩

theorem loadRows_append {α : Type} (pf : Str → Except PyErr α) (s : LoadState α)
    (l1 l2 : List (Dict Str)) :
    loadRows pf s (l1 ++ l2) =
      match loadRows pf s l1 with
      | .error e => .error e
      | .ok s' => loadRows pf s' l2 := by
  induction l1 generalizing s with
  | nil => simp [loadRows]
  | cons r rest ih =>
    rw [List.cons_append]
    simp only [loadRows]
    cases h : loadRow pf s r <;> simp [ih]

theorem loadRows_ok_inv {α : Type} {pf : Str → Except PyErr α}
    (P : LoadState α → Prop) (Q : Dict Str → Prop)
    (hstep : ∀ t t' r, Q r → P t → loadRow pf t r = .ok t' → P t') :
    ∀ {rows : List (Dict Str)} {s s' : LoadState α},
      (∀ r ∈ rows, Q r) → P s → loadRows pf s rows = .ok s' → P s' := by
  intro rows
  induction rows with
  | nil =>
    intro s s' _ hP h
    simp only [loadRows] at h
    cases h
    exact hP
  | cons r rest ih =>
    intro s s' hQ hP h
    simp only [loadRows] at h
    cases hr : loadRow pf s r with
    | error e =>
      simp only [hr] at h
      exact Except.noConfusion h
    | ok t =>
      simp only [hr] at h
      exact ih (fun x hx => hQ x (List.mem_cons_of_mem _ hx))
        (hstep s t r (hQ r (List.mem_cons_self _ _)) hP hr) h

theorem loadRow_directions_nodup {α : Type} {pf : Str → Except PyErr α}
    {s s' : LoadState α} {row : Dict Str}
    (h : loadRow pf s row = .ok s') (hnd : s.directions.Nodup) :
    s'.directions.Nodup := by
  cases harea : dictGet? row areaK with
  | none =>
    rw [loadRow_area_none harea] at h
    exact Except.noConfusion h
  | some a =>
    by_cases hsite : a = siteV
    · subst hsite
      obtain ⟨_, _, _, _, _, _, _, _, hs⟩ := loadRow_site_inv harea h
      rw [hs]
      exact hnd
    · obtain ⟨d, t, risk, tm, _, _, _, hs⟩ := loadRow_notsite_inv harea hsite h
      rw [hs]
      by_cases hd : d ∈ s.directions
      · simpa [hd] using hnd
      · simp [hd, List.nodup_append, hnd]

theorem loadRow_risks_keys {α : Type} {pf : Str → Except PyErr α}
    {s s' : LoadState α} {row : Dict Str}
    (h : loadRow pf s row = .ok s') (hP : risksKeysOK s) :
    risksKeysOK s' := by
  cases harea : dictGet? row areaK with
  | none =>
    rw [loadRow_area_none harea] at h
    exact Except.noConfusion h
  | some a =>
    by_cases hsite : a = siteV
    · subst hsite
      obtain ⟨_, _, _, _, _, _, _, _, hs⟩ := loadRow_site_inv harea h
      rw [hs]
      exact hP
    · obtain ⟨d, t, risk, tm, _, _, htm, hs⟩ := loadRow_notsite_inv harea hsite h
      have hrk : ('R' :: t) = r1K ∨ ('R' :: t) = r2K := hP _ _ htm
      rw [hs]
      intro k v hk
      simp only [dictGet?_dictSet] at hk
      by_cases hkk : ('R' :: t) = k
      · rw [← hkk]
        exact hrk
      · rw [if_neg hkk] at hk
        exact hP _ _ hk

theorem loadRow_center_eq {α : Type} {pf : Str → Except PyErr α}
    {s s' : LoadState α} {row : Dict Str}
    (h : loadRow pf s row = .ok s') (hns : dictGet? row areaK ≠ some siteV) :
    s'.center = s.center := by
  cases harea : dictGet? row areaK with
  | none =>
    rw [loadRow_area_none harea] at h
    exact Except.noConfusion h
  | some a =>
    have hsite : a ≠ siteV := by
      intro hc
      rw [hc] at harea
      exact hns harea
    obtain ⟨d, t, risk, tm, _, _, _, hs⟩ := loadRow_notsite_inv harea hsite h
    rw [hs]

theorem loadRows_center_const {α : Type} {pf : Str → Except PyErr α}
    {rows : List (Dict Str)} {s s' : LoadState α}
    (hnos : ∀ r ∈ rows, dictGet? r areaK ≠ some siteV)
    (h : loadRows pf s rows = .ok s') : s'.center = s.center :=
  loadRows_ok_inv (fun t => t.center = s.center)
    (fun r => dictGet? r areaK ≠ some siteV)
    (fun t t' r hQ hP hr => (loadRow_center_eq hr hQ).trans hP)
    hnos rfl h

theorem loadRows_nodup {α : Type} {pf : Str → Except PyErr α}
    {rows : List (Dict Str)} {s' : LoadState α}
    (h : loadRows pf (initState α) rows = .ok s') : s'.directions.Nodup :=
  loadRows_ok_inv (fun t => t.directions.Nodup) (fun _ => True)
    (fun t t' r _ hP hr => loadRow_directions_nodup hr hP)
    (fun _ _ => trivial) (by simp [initState]) h

theorem loadRows_risks_keys {α : Type} {pf : Str → Except PyErr α}
    {rows : List (Dict Str)} {s' : LoadState α}
    (h : loadRows pf (initState α) rows = .ok s') : risksKeysOK s' :=
  loadRows_ok_inv risksKeysOK (fun _ => True)
    (fun t t' r _ hP hr => loadRow_risks_keys hr hP)
    (fun _ _ => trivial)
    (by
      intro k v hk
      simp only [initState, dictGet?] at hk
      by_cases h1 : r1K = k
      · exact Or.inl h1.symm
      · rw [if_neg h1] at hk
        by_cases h2 : r2K = k
        · exact Or.inr h2.symm
        · rw [if_neg h2] at hk
          exact Option.noConfusion hk) h

theorem load_csv_data_ok_inv {α : Type} {pf : Str → Except PyErr α}
    {rows : List (Dict Str)} {dirs : List Str} {risks : Dict (Dict Str)} {center : α × α}
    (h : load_csv_data pf rows = .ok (dirs, risks, center)) :
    ∃ s : LoadState α, loadRows pf (initState α) rows = .ok s ∧
      s.directions = dirs ∧ s.risks = risks ∧ s.center = some center := by
  unfold load_csv_data at h
  cases hl : loadRows pf (initState α) rows with
  | error e =>
    simp only [hl] at h
    exact Except.noConfusion h
  | ok s =>
    simp only [hl] at h
    cases hc : s.center with
    | none =>
      simp only [hc] at h
      exact Except.noConfusion h
    | some c =>
      simp only [hc, Except.ok.injEq, Prod.mk.injEq] at h
      obtain ⟨h1, h2, h3⟩ := h
      exact ⟨s, rfl, h1, h2, by rw [hc, h3]⟩

/-!
Lemmas about the sector-assembly loop.
-/

theorem buildFeatures_ok_spec {α : Type} [Field α] (M : MathOps α) (tr : α × α → α × α)
    (risks : Dict (Dict Str)) (center : α × α) (radiusInner radiusOuter : α) (num : ℕ)
    (hnum : num ≠ 0) :
    ∀ (ds : List Str) (i : ℕ) (fI fO : List (Feature α)),
      buildFeatures M tr risks center radiusInner radiusOuter num i ds = .ok (fI, fO) →
      fI.length = ds.length ∧ fO.length = ds.length ∧
      ∀ j, j < ds.length → ∃ dd rI rO,
        ds[j]? = some dd ∧
        fI[j]? = some ⟨center ::
            arc_points M tr radiusInner (sector_start num (i + j)) (sector_end num (i + j)) 30
            ++ [center], dd ++ r1Suffix, rI⟩ ∧
        fO[j]? = some
          ⟨arc_points M tr radiusOuter (sector_start num (i + j)) (sector_end num (i + j)) 30 ++
            (arc_points M tr radiusInner (sector_start num (i + j)) (sector_end num (i + j)) 30).reverse,
           dd ++ r2Suffix, rO⟩ := by
  have hw : pydiv (360 : α) num = .ok ((360 : α) / (num : α)) := by
    rw [pydiv, if_neg hnum]
  have harc : ∀ r s e : α, calculate_arc_points M tr center r s e 30 =
      .ok (arc_points M tr r s e 30) :=
    fun r s e => calculate_arc_points_ok M tr center r s e 30 (by norm_num)
  intro ds
  induction ds with
  | nil =>
    intro i fI fO h
    simp only [buildFeatures, Except.ok.injEq, Prod.mk.injEq] at h
    obtain ⟨h1, h2⟩ := h
    subst h1
    subst h2
    refine ⟨rfl, rfl, ?_⟩
    intro j hj
    exact absurd hj (by simp)
  | cons d rest ih =>
    intro i fI fO h
    simp only [buildFeatures, hw, harc] at h
    cases h1 : dictGetE risks r1K with
    | error e => simp only [h1] at h; exact Except.noConfusion h
    | ok m1 =>
      simp only [h1] at h
      cases h2 : dictGetE m1 d with
      | error e => simp only [h2] at h; exact Except.noConfusion h
      | ok rI =>
        simp only [h2] at h
        cases h3 : dictGetE risks r2K with
        | error e => simp only [h3] at h; exact Except.noConfusion h
        | ok m2 =>
          simp only [h3] at h
          cases h4 : dictGetE m2 d with
          | error e => simp only [h4] at h; exact Except.noConfusion h
          | ok rO =>
            simp only [h4] at h
            cases h5 : buildFeatures M tr risks center radiusInner radiusOuter num (i + 1) rest with
            | error e => simp only [h5] at h; exact Except.noConfusion h
            | ok pr =>
              obtain ⟨rfI, rfO⟩ := pr
              simp only [h5, Except.ok.injEq, Prod.mk.injEq] at h
              obtain ⟨hI, hO⟩ := h
              subst hI
              subst hO
              obtain ⟨ihl1, ihl2, ihj⟩ := ih (i + 1) rfI rfO h5
              refine ⟨by simp [ihl1], by simp [ihl2], ?_⟩
              intro j hj
              cases j with
              | zero =>
                refine ⟨d, rI, rO, by simp, ?_, ?_⟩ <;>
                  simp [sector_start, sector_end]
              | succ j' =>
                have hj' : j' < rest.length := by simpa using hj
                obtain ⟨dd, rI', rO', hdd, hI', hO'⟩ := ihj j' hj'
                have hidx : i + (j' + 1) = (i + 1) + j' := by omega
                refine ⟨dd, rI', rO', ?_, ?_, ?_⟩ <;>
                  simp only [List.getElem?_cons_succ, hidx, hdd, hI', hO']

theorem buildFeatures_error_missing {α : Type} [Field α] (M : MathOps α) (tr : α × α → α × α)
    (risks : Dict (Dict Str)) (center : α × α) (radiusInner radiusOuter : α) (num : ℕ)
    (hnum : num ≠ 0) (m1 m2 : Dict Str)
    (hr1 : dictGet? risks r1K = some m1) (hr2 : dictGet? risks r2K = some m2)
    (d : Str) (hd1 : (dictGet? m1 d).isSome = true) (hd2 : dictGet? m2 d = none) :
    ∀ (pre : List Str) (i : ℕ) (rest : List Str),
      (∀ x ∈ pre, (dictGet? m1 x).isSome = true) →
      (∀ x ∈ pre, (dictGet? m2 x).isSome = true) →
      buildFeatures M tr risks center radiusInner radiusOuter num i (pre ++ d :: rest) =
        .error (.keyError d) := by
  have hw : pydiv (360 : α) num = .ok ((360 : α) / (num : α)) := by
    rw [pydiv, if_neg hnum]
  have harc : ∀ r s e : α, calculate_arc_points M tr center r s e 30 =
      .ok (arc_points M tr r s e 30) :=
    fun r s e => calculate_arc_points_ok M tr center r s e 30 (by norm_num)
  intro pre
  induction pre with
  | nil =>
    intro i rest _ _
    obtain ⟨rI, hrI⟩ := Option.isSome_iff_exists.mp hd1
    simp [buildFeatures, hw, harc, dictGetE, hr1, hrI, hr2, hd2]
  | cons p pre' ih =>
    intro i rest hall1 hall2
    obtain ⟨v1, hv1⟩ := Option.isSome_iff_exists.mp (hall1 p (List.mem_cons_self _ _))
    obtain ⟨v2, hv2⟩ := Option.isSome_iff_exists.mp (hall2 p (List.mem_cons_self _ _))
    have hrec := ih (i + 1) rest
      (fun x hx => hall1 x (List.mem_cons_of_mem _ hx))
      (fun x hx => hall2 x (List.mem_cons_of_mem _ hx))
    simp [buildFeatures, hw, harc, dictGetE, hr1, hr2, hv1, hv2, hrec]

theorem generate_ok_inv {α : Type} [Field α] {M : MathOps α} {tr : α × α → α × α}
    {dirs : List Str} {risks : Dict (Dict Str)} {center : α × α} {rIn rOut : α}
    {fcI fcO : FeatureCollection α}
    (h : generate_pie_chart M tr dirs risks center rIn rOut = .ok (fcI, fcO)) :
    buildFeatures M tr risks center rIn rOut dirs.length 0 dirs =
      .ok (fcI.features, fcO.features) := by
  unfold generate_pie_chart at h
  cases hb : buildFeatures M tr risks center rIn rOut dirs.length 0 dirs with
  | error e =>
    simp only [hb] at h
    exact Except.noConfusion h
  | ok pr =>
    obtain ⟨l1, l2⟩ := pr
    simp only [hb, Except.ok.injEq, Prod.mk.injEq] at h
    obtain ⟨h1, h2⟩ := h
    rw [← h1, ← h2]

theorem generate_error_of_build {α : Type} [Field α] {M : MathOps α} {tr : α × α → α × α}
    {dirs : List Str} {risks : Dict (Dict Str)} {center : α × α} {rIn rOut : α} {e : PyErr}
    (h : buildFeatures M tr risks center rIn rOut dirs.length 0 dirs = .error e) :
    generate_pie_chart M tr dirs risks center rIn rOut = .error e := by
  unfold generate_pie_chart
  rw [h]

/-!
The claims. Rational arithmetic is made locally semireducible so that
concrete runs of the embedded program evaluate inside `decide`.
-/

section Claims

attribute [local semireducible] Rat.mul Rat.add Rat.sub Rat.inv

/-- C1 (confirmed): for every valid input — a table that loads into
direction list `dirs`, risk dict and center, and whose assembly succeeds —
the merged output collection is exactly the inner features followed by the
outer features and contains `2·N` features, where `N` is the number of
unique directions (the loader's `dirs` is proved duplicate-free). For
every `j < N`, feature `j` is the inner-tier feature of the `j`-th
direction (its `Area` is the direction followed by `_R1`) and feature
`N + j` is the outer-tier feature of the same direction (`Area` suffix
`_R2`): all inner features come first, then all outer features, both in
direction order. -/
theorem merged_collection_spec {α : Type} [Field α] (M : MathOps α) (tr : α × α → α × α)
    (pf : Str → Except PyErr α) (rows : List (Dict Str)) (dirs : List Str)
    (risks : Dict (Dict Str)) (center : α × α) (rIn rOut : α)
    (fcI fcO : FeatureCollection α) (j : ℕ)
    (hload : load_csv_data pf rows = .ok (dirs, risks, center))
    (hgen : generate_pie_chart M tr dirs risks center rIn rOut = .ok (fcI, fcO))
    (hj : j < dirs.length) :
    dirs.Nodup ∧
    (merge_inner_outer fcI fcO).features = fcI.features ++ fcO.features ∧
    fcI.features.length = dirs.length ∧ fcO.features.length = dirs.length ∧
    (merge_inner_outer fcI fcO).features.length = 2 * dirs.length ∧
    ∃ dd fIj fOj,
      dirs[j]? = some dd ∧
      (merge_inner_outer fcI fcO).features[j]? = some fIj ∧ fIj.area = dd ++ r1Suffix ∧
      (merge_inner_outer fcI fcO).features[dirs.length + j]? = some fOj ∧
      fOj.area = dd ++ r2Suffix := by
  have hnum : dirs.length ≠ 0 := by omega
  obtain ⟨l1len, l2len, hjspec⟩ :=
    buildFeatures_ok_spec M tr risks center rIn rOut dirs.length hnum dirs 0
      fcI.features fcO.features (generate_ok_inv hgen)
  obtain ⟨s, hlr, hsd, _, _⟩ := load_csv_data_ok_inv hload
  have hnd : dirs.Nodup := hsd ▸ loadRows_nodup hlr
  obtain ⟨dd, rI, rO, hdd, hI, hO⟩ := hjspec j hj
  have hIm : (merge_inner_outer fcI fcO).features[j]? = fcI.features[j]? := by
    show (fcI.features ++ fcO.features)[j]? = _
    rw [List.getElem?_append, if_pos (by rw [l1len]; exact hj)]
  have hOm : (merge_inner_outer fcI fcO).features[dirs.length + j]? = fcO.features[j]? := by
    show (fcI.features ++ fcO.features)[dirs.length + j]? = _
    rw [List.getElem?_append_right (by rw [l1len]; omega), l1len]
    simp
  exact ⟨hnd, rfl, l1len, l2len,
    by simp only [merge_inner_outer, List.length_append, l1len, l2len]; omega,
    dd, _, _, hdd, hIm.trans hI, rfl, hOm.trans hO, rfl⟩

/-- C1 witness: the three-row table `rows0` (Site, `N_R1`, `N_R2`) loads
and assembles; its merged collection has the claimed shape at `j = 0`. -/
theorem merged_collection_spec_witness :
    [nD].Nodup ∧
    (merge_inner_outer fcI0 fcO0).features = fcI0.features ++ fcO0.features ∧
    fcI0.features.length = [nD].length ∧ fcO0.features.length = [nD].length ∧
    (merge_inner_outer fcI0 fcO0).features.length = 2 * [nD].length ∧
    ∃ dd fIj fOj,
      [nD][0]? = some dd ∧
      (merge_inner_outer fcI0 fcO0).features[0]? = some fIj ∧ fIj.area = dd ++ r1Suffix ∧
      (merge_inner_outer fcI0 fcO0).features[[nD].length + 0]? = some fOj ∧
      fOj.area = dd ++ r2Suffix :=
  merged_collection_spec Mtriv trId pf0 rows0 [nD] risks0 ((0 : ℚ), 0) 100 200
    fcI0 fcO0 0 (by decide) (by decide) (by decide)

/-- C4 (confirmed): in every successful assembly, the `j`-th inner sector
polygon's ring is exactly `[Center] ++ arc(radiusInner, startAngle_j,
endAngle_j) ++ [Center]`; hence the ring's first and last vertices
coincide at the Center and the Center is a vertex of the ring. -/
theorem inner_ring_spec {α : Type} [Field α] (M : MathOps α) (tr : α × α → α × α)
    (dirs : List Str) (risks : Dict (Dict Str)) (center : α × α) (rIn rOut : α)
    (fcI fcO : FeatureCollection α) (j : ℕ)
    (hgen : generate_pie_chart M tr dirs risks center rIn rOut = .ok (fcI, fcO))
    (hj : j < fcI.features.length) :
    ∃ f : Feature α,
      fcI.features[j]? = some f ∧
      f.ring = center ::
        arc_points M tr rIn (sector_start dirs.length j) (sector_end dirs.length j) 30
        ++ [center] ∧
      f.ring.head? = some center ∧
      f.ring.getLast? = some center ∧
      center ∈ f.ring := by
  have hbuild := generate_ok_inv hgen
  have hnum : dirs.length ≠ 0 := by
    intro h0
    rw [List.length_eq_zero] at h0
    subst h0
    simp only [buildFeatures, Except.ok.injEq, Prod.mk.injEq] at hbuild
    rw [← hbuild.1] at hj
    exact absurd hj (by simp)
  obtain ⟨l1len, l2len, hjspec⟩ :=
    buildFeatures_ok_spec M tr risks center rIn rOut dirs.length hnum dirs 0
      fcI.features fcO.features hbuild
  rw [l1len] at hj
  obtain ⟨dd, rI, rO, hdd, hI, hO⟩ := hjspec j hj
  simp only [Nat.zero_add] at hI
  refine ⟨_, hI, rfl, rfl, ?_, ?_⟩
  · exact List.getLast?_concat
      (center :: arc_points M tr rIn (sector_start dirs.length j) (sector_end dirs.length j) 30)
  · exact List.mem_cons_self _ _

/-- C4 witness: in the single-direction run, the inner feature's ring is
Center, the 31 arc points, Center again. -/
theorem inner_ring_spec_witness :
    ∃ f : Feature ℚ,
      fcI0.features[0]? = some f ∧
      f.ring = ((0 : ℚ), (0 : ℚ)) ::
        arc_points Mtriv trId 100 (sector_start [nD].length 0) (sector_end [nD].length 0) 30
        ++ [((0 : ℚ), (0 : ℚ))] ∧
      f.ring.head? = some ((0 : ℚ), (0 : ℚ)) ∧
      f.ring.getLast? = some ((0 : ℚ), (0 : ℚ)) ∧
      ((0 : ℚ), (0 : ℚ)) ∈ f.ring :=
  inner_ring_spec Mtriv trId [nD] risks0 ((0 : ℚ), 0) 100 200 fcI0 fcO0 0
    (by decide) (by decide)

/-- C5 (confirmed): in every successful assembly — with the ambient facts
that `sin² + cos² = 1`, that the only preimage of the Center under the
transformer is the local origin, and that both radii are positive — the
`j`-th outer sector polygon's ring is exactly the outer-radius arc
followed by the reverse of the inner-radius arc for the same angular
range, and no vertex of that ring coincides with the Center. -/
theorem outer_ring_spec {α : Type} [LinearOrderedField α] (M : MathOps α)
    (tr : α × α → α × α) (dirs : List Str) (risks : Dict (Dict Str)) (center : α × α)
    (rIn rOut : α) (fcI fcO : FeatureCollection α) (j : ℕ)
    (hM : ∀ t : α, M.sin t ^ 2 + M.cos t ^ 2 = 1)
    (htr : ∀ p : α × α, tr p = center → p = (0, 0))
    (hrIn : 0 < rIn) (hrOut : 0 < rOut)
    (hgen : generate_pie_chart M tr dirs risks center rIn rOut = .ok (fcI, fcO))
    (hj : j < fcO.features.length) :
    ∃ f : Feature α,
      fcO.features[j]? = some f ∧
      f.ring = arc_points M tr rOut (sector_start dirs.length j) (sector_end dirs.length j) 30
        ++ (arc_points M tr rIn (sector_start dirs.length j) (sector_end dirs.length j) 30).reverse ∧
      center ∉ f.ring := by
  have hbuild := generate_ok_inv hgen
  have hnum : dirs.length ≠ 0 := by
    intro h0
    rw [List.length_eq_zero] at h0
    subst h0
    simp only [buildFeatures, Except.ok.injEq, Prod.mk.injEq] at hbuild
    rw [← hbuild.2] at hj
    exact absurd hj (by simp)
  obtain ⟨l1len, l2len, hjspec⟩ :=
    buildFeatures_ok_spec M tr risks center rIn rOut dirs.length hnum dirs 0
      fcI.features fcO.features hbuild
  rw [l2len] at hj
  obtain ⟨dd, rI, rO, hdd, hI, hO⟩ := hjspec j hj
  simp only [Nat.zero_add] at hO
  have hnotarc : ∀ r : α, 0 < r → ∀ sa ea : α, center ∉ arc_points M tr r sa ea 30 := by
    intro r hr sa ea hmem
    obtain ⟨k, hk⟩ := arc_points_mem hmem
    have hp := htr _ hk.symm
    rw [Prod.ext_iff] at hp
    obtain ⟨h1, h2⟩ := hp
    have hs : M.sin (M.radians (sample_deg sa ea 30 k)) = 0 := by
      rcases mul_eq_zero.mp h1 with h | h
      · exact absurd h (ne_of_gt hr)
      · exact h
    have hc : M.cos (M.radians (sample_deg sa ea 30 k)) = 0 := by
      rcases mul_eq_zero.mp h2 with h | h
      · exact absurd h (ne_of_gt hr)
      · exact h
    have := hM (M.radians (sample_deg sa ea 30 k))
    rw [hs, hc] at this
    norm_num at this
  refine ⟨_, hO, rfl, ?_⟩
  intro hmem
  rcases List.mem_append.mp hmem with h | h
  · exact hnotarc rOut hrOut _ _ h
  · exact hnotarc rIn hrIn _ _ (List.mem_reverse.mp h)

/-- C5 witness: in the single-direction run with `sin = 0`, `cos = 1`, the
identity transformer and center `(0, 0)`, the outer ring is the outer arc
followed by the reversed inner arc, and the center is not a vertex. -/
theorem outer_ring_spec_witness :
    ∃ f : Feature ℚ,
      fcO0.features[0]? = some f ∧
      f.ring = arc_points Mtriv trId 200 (sector_start [nD].length 0) (sector_end [nD].length 0) 30
        ++ (arc_points Mtriv trId 100 (sector_start [nD].length 0) (sector_end [nD].length 0) 30).reverse ∧
      (((0 : ℚ), (0 : ℚ)) : ℚ × ℚ) ∉ f.ring :=
  outer_ring_spec Mtriv trId [nD] risks0 ((0 : ℚ), 0) 100 200 fcI0 fcO0 0
    (by intro t; simp [Mtriv])
    (fun p h => h)
    (by norm_num) (by norm_num)
    (by decide) (by decide)

/-- C2 counterexample: the claim quantifies over every point count, but at
point count `0` `calculate_arc_points` raises `ZeroDivisionError` — the
Python loop body divides by `num_points` — instead of returning an ordered
sequence of `0 + 1` points. -/
theorem arc_sampler_zero_cex :
    calculate_arc_points Mtriv trId ((0 : ℚ), 0) 1 0 360 0 = .error .zeroDivisionError ∧
    ¬∃ pts : List (ℚ × ℚ), calculate_arc_points Mtriv trId ((0 : ℚ), 0) 1 0 360 0 = .ok pts := by
  refine ⟨by decide, ?_⟩
  rintro ⟨pts, h⟩
  rw [show calculate_arc_points Mtriv trId ((0 : ℚ), 0) 1 0 360 0 =
      .error .zeroDivisionError from by decide] at h
  exact Except.noConfusion h

/-- C2 (amended: point count `n ≥ 1`; at `n = 0` the code raises
`ZeroDivisionError`, see the counterexample): the arc sampler returns an
ordered sequence of exactly `n + 1` points; the `k`-th point is the
transformer's image of the local point `(radius·sin θ_k, radius·cos θ_k)`
with `θ_k = radians(startAngle + (endAngle − startAngle)·k/n)`; the
sampled degree angles start at `startAngle`, end at `endAngle` (both
endpoints included) and are evenly spaced with step
`(endAngle − startAngle)/n`. -/
theorem arc_sampler_spec {α : Type} [LinearOrderedField α] (M : MathOps α)
    (tr : α × α → α × α) (c : α × α) (r s e : α) (n k : ℕ) (hn : 0 < n) (hk : k ≤ n) :
    calculate_arc_points M tr c r s e n = .ok (arc_points M tr r s e n) ∧
    (arc_points M tr r s e n).length = n + 1 ∧
    (arc_points M tr r s e n)[k]? =
      some (tr (r * M.sin (M.radians (sample_deg s e n k)),
                r * M.cos (M.radians (sample_deg s e n k)))) ∧
    sample_deg s e n 0 = s ∧
    sample_deg s e n n = e ∧
    (k < n → sample_deg s e n (k + 1) - sample_deg s e n k = (e - s) / (n : α)) := by
  have hne : (n : α) ≠ 0 := Nat.cast_ne_zero.mpr (by omega)
  refine ⟨calculate_arc_points_ok M tr c r s e n (by omega),
    arc_points_length M tr r s e n,
    arc_points_getElem? M tr r s e n k hk, ?_, ?_, ?_⟩
  · simp [sample_deg]
  · rw [sample_deg, mul_div_assoc, div_self hne, mul_one]
    ring
  · intro hkn
    rw [sample_deg, sample_deg]
    push_cast
    field_simp
    ring

/-- C2 witness: the amended sampler contract, instantiated at radius `5`,
angles `0`–`90`, `n = 2`, `k = 1`. -/
theorem arc_sampler_spec_witness :
    calculate_arc_points Mtriv trId ((0 : ℚ), 0) 5 0 90 2 = .ok (arc_points Mtriv trId 5 0 90 2) ∧
    (arc_points Mtriv trId (5 : ℚ) 0 90 2).length = 2 + 1 ∧
    (arc_points Mtriv trId (5 : ℚ) 0 90 2)[1]? =
      some (trId (5 * Mtriv.sin (Mtriv.radians (sample_deg 0 90 2 1)),
                  5 * Mtriv.cos (Mtriv.radians (sample_deg 0 90 2 1)))) ∧
    sample_deg (0 : ℚ) 90 2 0 = 0 ∧
    sample_deg (0 : ℚ) 90 2 2 = 90 ∧
    (1 < 2 → sample_deg (0 : ℚ) 90 2 (1 + 1) - sample_deg (0 : ℚ) 90 2 1 = (90 - 0) / (2 : ℚ)) :=
  arc_sampler_spec Mtriv trId ((0 : ℚ), 0) 5 0 90 2 1 (by norm_num) (by norm_num)

/-- C3 (confirmed): for `N ≥ 1` directions, the `i`-th direction's sector
is `[i·(360/N), (i+1)·(360/N))` of width `360/N`; a rational `x` lies in
`[0, 360)` exactly when it lies in some sector, and distinct sectors never
share a point: the `N` ranges partition `[0, 360)` exhaustively and
without overlap. -/
theorem sector_partition (N i j : ℕ) (x : ℚ) (hN : 1 ≤ N) (hi : i < N) (hj : j < N) :
    (sector_start N i : ℚ) = (i : ℚ) * (360 / (N : ℚ)) ∧
    (sector_end N i : ℚ) = ((i : ℚ) + 1) * (360 / (N : ℚ)) ∧
    (sector_end N i : ℚ) - sector_start N i = 360 / (N : ℚ) ∧
    ((0 ≤ x ∧ x < 360) ↔
      ∃ k, k < N ∧ (sector_start N k : ℚ) ≤ x ∧ x < sector_end N k) ∧
    (i ≠ j →
      ¬((sector_start N i : ℚ) ≤ x ∧ x < sector_end N i ∧
        (sector_start N j : ℚ) ≤ x ∧ x < sector_end N j)) := by
  have hN0 : (0 : ℚ) < (N : ℚ) := by exact_mod_cast Nat.lt_of_lt_of_le Nat.zero_lt_one hN
  have hw : (0 : ℚ) < 360 / (N : ℚ) := div_pos (by norm_num) hN0
  have hstart : ∀ m : ℕ, (sector_start N m : ℚ) = (m : ℚ) * (360 / (N : ℚ)) := fun m => rfl
  have hend : ∀ m : ℕ, (sector_end N m : ℚ) = ((m : ℚ) + 1) * (360 / (N : ℚ)) := by
    intro m
    rw [sector_end, sector_start]
    ring
  have hNw : (N : ℚ) * (360 / (N : ℚ)) = 360 := by field_simp
  refine ⟨rfl, hend i, by rw [sector_end]; ring, ?_, ?_⟩
  · constructor
    · rintro ⟨hx0, hx1⟩
      have hq0 : 0 ≤ x / (360 / (N : ℚ)) := div_nonneg hx0 hw.le
      have hkz0 : 0 ≤ ⌊x / (360 / (N : ℚ))⌋ := Int.floor_nonneg.mpr hq0
      have hqN : x / (360 / (N : ℚ)) < (N : ℚ) := by
        rw [div_lt_iff hw, hNw]
        exact hx1
      have hkzN : ⌊x / (360 / (N : ℚ))⌋ < (N : ℤ) := Int.floor_lt.mpr (by exact_mod_cast hqN)
      have hc : ((⌊x / (360 / (N : ℚ))⌋.toNat : ℕ) : ℚ) = ((⌊x / (360 / (N : ℚ))⌋ : ℤ) : ℚ) := by
        exact_mod_cast Int.toNat_of_nonneg hkz0
      refine ⟨⌊x / (360 / (N : ℚ))⌋.toNat, by omega, ?_, ?_⟩
      · rw [hstart, hc, ← le_div_iff hw]
        exact Int.floor_le _
      · rw [hend, hc, ← div_lt_iff hw]
        exact Int.lt_floor_add_one _
    · rintro ⟨k, hkN, hk1, hk2⟩
      constructor
      · refine le_trans ?_ hk1
        rw [hstart]
        positivity
      · refine lt_of_lt_of_le hk2 ?_
        rw [hend]
        calc ((k : ℚ) + 1) * (360 / (N : ℚ))
            ≤ (N : ℚ) * (360 / (N : ℚ)) := by
              have hbound : ((k : ℚ) + 1) ≤ (N : ℚ) := by exact_mod_cast hkN
              exact mul_le_mul_of_nonneg_right hbound hw.le
          _ = 360 := hNw
  · rintro hne ⟨h1, h2, h3, h4⟩
    have key : ∀ a b : ℕ, a < b → x < (sector_end N a : ℚ) →
        (sector_start N b : ℚ) ≤ x → False := by
      intro a b hab hxa hbx
      have hstep : (sector_end N a : ℚ) ≤ sector_start N b := by
        rw [hend, hstart]
        have hcast : ((a : ℚ) + 1) ≤ (b : ℚ) := by exact_mod_cast hab
        exact mul_le_mul_of_nonneg_right hcast hw.le
      linarith
    rcases Nat.lt_or_ge i j with hij | hij
    · exact key i j hij h2 h3
    · exact key j i (by omega) h4 h1

/-- C3 witness: the partition at `N = 4` sectors, checked for sectors `0`
and `1` and the angle `x = 90`. -/
theorem sector_partition_witness :
    (sector_start 4 0 : ℚ) = (0 : ℚ) * (360 / (4 : ℚ)) ∧
    (sector_end 4 0 : ℚ) = ((0 : ℚ) + 1) * (360 / (4 : ℚ)) ∧
    (sector_end 4 0 : ℚ) - sector_start 4 0 = 360 / (4 : ℚ) ∧
    ((0 ≤ (90 : ℚ) ∧ (90 : ℚ) < 360) ↔
      ∃ k, k < 4 ∧ (sector_start 4 k : ℚ) ≤ 90 ∧ (90 : ℚ) < sector_end 4 k) ∧
    (0 ≠ 1 →
      ¬((sector_start 4 0 : ℚ) ≤ 90 ∧ (90 : ℚ) < sector_end 4 0 ∧
        (sector_start 4 1 : ℚ) ≤ 90 ∧ (90 : ℚ) < sector_end 4 1)) :=
  sector_partition 4 0 1 90 (by norm_num) (by norm_num) (by norm_num)

/-- C6 (confirmed): if a non-Site row's `Area` value does not decompose as
`<direction>_R<tier-number>` with tier-number `1` or `2`, or the row lacks
a `Risk` value, then — whatever rows follow and provided the preceding
rows processed cleanly — loading fails with the error raised while
processing that row (the spec's `MalformedRowError`: Python raises
`ValueError` for an unsplittable `Area`, `KeyError` for a missing `Risk`
field or an out-of-range tier), aborting at the offending row with no
partial result. -/
theorem malformed_row_aborts {α : Type} (pf : Str → Except PyErr α)
    (pre : List (Dict Str)) (row : Dict Str) (s : LoadState α) (a : Str)
    (hpre : loadRows pf (initState α) pre = .ok s)
    (ha : dictGet? row areaK = some a)
    (hsite : a ≠ siteV)
    (hbad : (∀ d t : Str, a = d ++ '_' :: 'R' :: t → ¬(t = ['1'] ∨ t = ['2'])) ∨
            dictGet? row riskK = none) :
    ∃ e, loadRow pf s row = .error e ∧
      ∀ suf : List (Dict Str), load_csv_data pf (pre ++ row :: suf) = .error e := by
  cases hr : loadRow pf s row with
  | ok s' =>
    exfalso
    obtain ⟨d, t, risk, tm, hsplit, hrisk, htm, _⟩ := loadRow_notsite_inv ha hsite hr
    rcases hbad with hbad | hbad
    · have hkeys := loadRows_risks_keys hpre
      rcases hkeys _ _ htm with hk | hk
      · refine hbad d t (pySplitR_pair hsplit) (Or.inl ?_)
        injection (show ('R' : Char) :: t = 'R' :: ['1'] from hk)
      · refine hbad d t (pySplitR_pair hsplit) (Or.inr ?_)
        injection (show ('R' : Char) :: t = 'R' :: ['2'] from hk)
    · rw [hbad] at hrisk
      exact Option.noConfusion hrisk
  | error e =>
    refine ⟨e, rfl, ?_⟩
    intro suf
    unfold load_csv_data
    rw [loadRows_append]
    simp only [hpre, loadRows, hr]

/-- C6 witness: after the Site row, the row `N_R1` without a `Risk` field
aborts the load (here with `KeyError "Risk"`), for the empty suffix. -/
theorem malformed_row_aborts_witness :
    ∃ e, loadRow pf0 sSite rowNoRisk = .error e ∧
      load_csv_data pf0 [siteRow, rowNoRisk] = .error e := by
  obtain ⟨e, h1, h2⟩ :=
    malformed_row_aborts pf0 [siteRow] rowNoRisk sSite ("N_R1".toList)
      (by decide) (by decide) (by decide) (Or.inr (by decide))
  exact ⟨e, h1, h2 []⟩

/-- C7 counterexample: the single-row table `[rowBad]` contains no Site
row, yet the run does not fail with the missing-center error: it fails at
the malformed row `bad` with the unpack `ValueError`, before the center
check is ever reached. -/
theorem missing_center_cex :
    dictGet? rowBad areaK = some ("bad".toList) ∧
    ("bad".toList : Str) ≠ siteV ∧
    main pf0 Mtriv mkTr0 [rowBad] = .error (.valueError unpackFewMsg) ∧
    (PyErr.valueError unpackFewMsg) ≠ .valueError centerMsg :=
  ⟨by decide, by decide, by decide, by decide⟩

/-- C7 (amended: restricted to tables whose rows all process successfully —
a malformed row otherwise fails first with its own parse error, see the
counterexample): if no row's `Area` is `Site`, the run fails with the
missing-center `ValueError` (the spec's `MissingCenterError`), raised by
the loader after the row loop and before any polygon computation; `main`
propagates it, so no output is written. -/
theorem missing_center_spec {α : Type} [Field α] (pf : Str → Except PyErr α)
    (M : MathOps α) (mkTr : α × α → α × α → α × α) (rows : List (Dict Str))
    (s : LoadState α)
    (hok : loadRows pf (initState α) rows = .ok s)
    (hnosite : ∀ r ∈ rows, dictGet? r areaK ≠ some siteV) :
    load_csv_data pf rows = .error (.valueError centerMsg) ∧
    main pf M mkTr rows = .error (.valueError centerMsg) := by
  have hc : s.center = none := loadRows_center_const hnosite hok
  have hload : load_csv_data pf rows = .error (.valueError centerMsg) := by
    unfold load_csv_data
    simp only [hok, hc]
  refine ⟨hload, ?_⟩
  unfold main
  simp only [hload]

/-- C7 witness: a table with one well-formed `N_R1` row and no Site row
yields the missing-center error and no output. -/
theorem missing_center_spec_witness :
    load_csv_data pf0 [rowNInner] = .error (.valueError centerMsg) ∧
    main pf0 Mtriv mkTr0 [rowNInner] = .error (.valueError centerMsg) :=
  missing_center_spec pf0 Mtriv mkTr0 [rowNInner] sNInner (by decide) (by decide)

/-- C8 counterexample: in the table `rowsMismatch`, direction `B` appears
in the inner tier's mapping and is absent from the outer tier's — the
claim's premise — and the table loads successfully; but the run fails with
`KeyError "A"` raised while assembling the INNER sector of direction `A`
(which has no inner-tier entry), not with a key error for `B` during
outer-sector assembly. -/
theorem tier_mismatch_cex :
    load_csv_data pf0 rowsMismatch = .ok ([aD, bD], risksMismatch, ((0 : ℚ), 0)) ∧
    dictGet? risksMismatch r1K = some [(bD, lowV)] ∧
    dictGet? [(bD, lowV)] bD = some lowV ∧
    dictGet? risksMismatch r2K = some [(aD, highV)] ∧
    dictGet? [(aD, highV)] bD = none ∧
    main pf0 Mtriv mkTr0 rowsMismatch = .error (.keyError aD) ∧
    (PyErr.keyError aD) ≠ .keyError bD :=
  ⟨by decide, by decide, by decide, by decide, by decide, by decide, by decide⟩

/-- C8 (amended: the failure is the `KeyError` carrying the first
direction, in direction order, that is absent from the outer tier's
mapping, raised at the outer-tier lookup during that direction's
outer-sector assembly — provided every direction has an inner-tier entry,
so that the preceding inner lookups succeed; without that proviso the run
can fail at inner assembly instead, see the counterexample): the pipeline
loads successfully and then fails during assembly. -/
theorem tier_mismatch_spec {α : Type} [Field α] (M : MathOps α)
    (mkTr : α × α → α × α → α × α) (pf : Str → Except PyErr α) (rows : List (Dict Str))
    (dirs pre rest : List Str) (d : Str) (risks : Dict (Dict Str)) (center : α × α)
    (m1 m2 : Dict Str)
    (hload : load_csv_data pf rows = .ok (dirs, risks, center))
    (hdirs : dirs = pre ++ d :: rest)
    (hr1 : dictGet? risks r1K = some m1)
    (hr2 : dictGet? risks r2K = some m2)
    (hall1 : ∀ x ∈ dirs, (dictGet? m1 x).isSome = true)
    (hpre2 : ∀ x ∈ pre, (dictGet? m2 x).isSome = true)
    (hd2 : dictGet? m2 d = none) :
    generate_pie_chart M (mkTr center) dirs risks center 100 200 = .error (.keyError d) ∧
    main pf M mkTr rows = .error (.keyError d) := by
  subst hdirs
  have hnum : (pre ++ d :: rest).length ≠ 0 := by simp
  have hd1 : (dictGet? m1 d).isSome = true := hall1 d (by simp)
  have hb := buildFeatures_error_missing M (mkTr center) risks center 100 200
    (pre ++ d :: rest).length hnum m1 m2 hr1 hr2 d hd1 hd2 pre 0 rest
    (fun x hx => hall1 x (by simp [hx])) hpre2
  have hgen := generate_error_of_build hb
  refine ⟨hgen, ?_⟩
  unfold main
  simp only [hload, hgen]

/-- C8 witness: the table with a Site row and only `B_R1` loads, direction
`B` has an inner entry and no outer entry, and the run fails with
`KeyError "B"` at the outer-tier lookup. -/
theorem tier_mismatch_spec_witness :
    generate_pie_chart Mtriv (mkTr0 ((0 : ℚ), 0)) [bD] [(r1K, [(bD, lowV)]), (r2K, [])]
      ((0 : ℚ), 0) 100 200 = .error (.keyError bD) ∧
    main pf0 Mtriv mkTr0 [siteRow, rowBInner] = .error (.keyError bD) :=
  tier_mismatch_spec Mtriv mkTr0 pf0 [siteRow, rowBInner] [bD] [] [] bD
    [(r1K, [(bD, lowV)]), (r2K, [])] ((0 : ℚ), 0) [(bD, lowV)] []
    (by decide) rfl (by decide) (by decide) (by decide) (by decide) (by decide)

/-- C9 (confirmed): processing a row whose `Area` is the sentinel `Site`
sets the Center to the parsed `(Lon_NO, Lat_NO)` pair of that row — in
`(longitude, latitude)` order — and changes nothing else: the direction
list and both tiers' risk mappings are untouched, so the Site row
contributes no direction and no risk entry. -/
theorem site_row_center {α : Type} (pf : Str → Except PyErr α) (s : LoadState α)
    (row : Dict Str) (ls lats : Str) (lv av : α)
    (ha : dictGet? row areaK = some siteV)
    (hlon : dictGet? row lonK = some ls) (hplon : pf ls = .ok lv)
    (hlat : dictGet? row latK = some lats) (hplat : pf lats = .ok av) :
    ∃ s', loadRow pf s row = .ok s' ∧
      s'.directions = s.directions ∧ s'.risks = s.risks ∧ s'.center = some (lv, av) :=
  ⟨_, loadRow_site pf s row ha hlon hplon hlat hplat, rfl, rfl, rfl⟩

/-- C9 witness: the concrete Site row sets the center to the parsed
coordinates (the length parser maps `"10.0"` and `"45.0"` to `4`) and
leaves directions and risks unchanged. -/
theorem site_row_center_witness :
    ∃ s', loadRow pfLen (initState ℚ) siteRow = .ok s' ∧
      s'.directions = (initState ℚ).directions ∧ s'.risks = (initState ℚ).risks ∧
      s'.center = some (4, 4) :=
  site_row_center pfLen (initState ℚ) siteRow ("10.0".toList) ("45.0".toList) 4 4
    (by decide) (by decide) (by decide) (by decide) (by decide)

/-- C10 (confirmed): a table may contain several Site rows without the
loader failing; each Site row overwrites the previously recorded center,
so with `r` the last Site row (none follows it) and the table loading
successfully, the returned Center is the coordinate parsed from `r`. -/
theorem last_site_wins {α : Type} (pf : Str → Except PyErr α)
    (rows1 rows2 : List (Dict Str)) (r : Dict Str) (s : LoadState α)
    (ls lats : Str) (lv av : α)
    (h : loadRows pf (initState α) (rows1 ++ r :: rows2) = .ok s)
    (hmulti : ∃ r' ∈ rows1, dictGet? r' areaK = some siteV)
    (hr : dictGet? r areaK = some siteV)
    (hlon : dictGet? r lonK = some ls) (hplon : pf ls = .ok lv)
    (hlat : dictGet? r latK = some lats) (hplat : pf lats = .ok av)
    (hafter : ∀ r' ∈ rows2, dictGet? r' areaK ≠ some siteV) :
    s.center = some (lv, av) ∧
    load_csv_data pf (rows1 ++ r :: rows2) = .ok (s.directions, s.risks, (lv, av)) := by
  have hc : s.center = some (lv, av) := by
    have h' := h
    rw [loadRows_append] at h'
    cases h1 : loadRows pf (initState α) rows1 with
    | error e =>
      simp only [h1] at h'
      exact Except.noConfusion h'
    | ok s1 =>
      simp only [h1] at h'
      rw [show loadRows pf s1 (r :: rows2) =
          loadRows pf { s1 with center := some (lv, av) } rows2 from by
        simp only [loadRows, loadRow_site pf s1 r hr hlon hplon hlat hplat]] at h'
      rw [loadRows_center_const hafter h']
  refine ⟨hc, ?_⟩
  unfold load_csv_data
  simp only [h, hc]

/-- C10 witness: two Site rows; under the length parser the first gives
center `(1, 3)` and the second `(4, 4)`; the load succeeds and the center
is the second (last) Site row's `(4, 4)`. -/
theorem last_site_wins_witness :
    sTwoSites.center = some (4, 4) ∧
    load_csv_data pfLen [siteRow2, siteRow] =
      .ok (sTwoSites.directions, sTwoSites.risks, ((4 : ℚ), 4)) :=
  last_site_wins pfLen [siteRow2] [] siteRow sTwoSites ("10.0".toList) ("45.0".toList) 4 4
    (by decide) ⟨siteRow2, by decide, by decide⟩ (by decide) (by decide) (by decide)
    (by decide) (by decide) (by decide)

end Claims

end NestedPie
